import Mathlib

/-!
Shallow embedding of the Morse digit decoder (`morse_decoder_optimized.py`) of
DeltaMorseDecode, together with theorems settling the specification claims.

Modelling conventions:
* Python floats (durations, gap thresholds, audio samples, filter
  coefficients) are embedded as exact rationals `ℚ`.
* A Morse digit is carried as its numeric value `Nat` (the Python code uses
  the character of the digit; on digit strings the two are isomorphic and all
  comparisons/`int` conversions agree).
* Wall-clock bookkeeping of the Python class (`timestamp`, `complete_time`,
  `last_digit_time`, `signal_start_time`) and the display-only
  `signal_history` deque are omitted: no decoding decision reads them.
* The Python dict entry for a non-forced sequence has no `forced` key and is
  read back with `.get('forced', False)`; it is embedded as `forced := false`.
-/

namespace DeltaMorse

/-- A Morse symbol: dot (`.`) or dash (`-`). -/
inductive Morse where
  | dot
  | dash
deriving DecidableEq, Repr

/-- A Morse code: the contents of `self.current_code`. -/
abbrev Code := List Morse

open Morse in
/-- The fixed digit dictionary `self.morse_dict` (10 entries, '0'–'9'). -/
def morse_dict : List (Code × Nat) :=
  [([dash, dash, dash, dash, dash], 0),
   ([dot, dash, dash, dash, dash], 1),
   ([dot, dot, dash, dash, dash], 2),
   ([dot, dot, dot, dash, dash], 3),
   ([dot, dot, dot, dot, dash], 4),
   ([dot, dot, dot, dot, dot], 5),
   ([dash, dot, dot, dot, dot], 6),
   ([dash, dash, dot, dot, dot], 7),
   ([dash, dash, dash, dot, dot], 8),
   ([dash, dash, dash, dash, dot], 9)]

/-- Initial detection threshold `self.threshold = 0.003`. -/
def initial_threshold : ℚ := 3/1000

/-- Duration threshold `self.dot_duration = 0.02`. -/
def dot_duration : ℚ := 2/100

/-- Duration threshold `self.dash_duration = 0.05`. -/
def dash_duration : ℚ := 5/100

/-- Silence threshold `self.letter_gap = 0.8` (the spec's `digitGap` role:
it gates the per-digit decode `elif` branch of `process_silence_duration`). -/
def letter_gap : ℚ := 8/10

/-- Silence threshold `self.word_gap = 0.4` (the spec's `sequenceGap` role:
it gates the sequence-end / forced-flush branch of `process_silence_duration`). -/
def word_gap : ℚ := 4/10

/-- Expected sequence lengths `self.expected_digits = [3, 4]`. -/
def expected_digits : List Nat := [3, 4]

/-- One archived sequence record appended to `self.number_sequences`
(the fields read back by the program: digits, stored length, forced marker). -/
structure SeqEntry where
  sequence : List Nat
  length : Nat
  forced : Bool
deriving DecidableEq, Repr

/-- The mutable decoding state of `MorseCodeDecoderGUI` that the sequence
assembler reads and writes: `self.current_code`,
`self.current_number_sequence`, `self.number_sequences`, `self.total_letters`. -/
structure DecoderState where
  current_code : Code
  current_number_sequence : List Nat
  number_sequences : List SeqEntry
  total_letters : Nat
deriving DecidableEq, Repr

/-- The state right after `__init__`: empty code, empty sequence, no history. -/
def initial_state : DecoderState :=
  { current_code := []
    current_number_sequence := []
    number_sequences := []
    total_letters := 0 }

/-- Embeds `check_complete_sequence`: archive a non-forced record when the
current sequence length is in `expected_digits`, discard the buffer when the
length exceeds `max(expected_digits)`, otherwise keep accumulating. -/
def check_complete_sequence (s : DecoderState) : DecoderState :=
  let seq_length := s.current_number_sequence.length
  if seq_length ∈ expected_digits then
    { s with
      number_sequences := s.number_sequences ++
        [{ sequence := s.current_number_sequence, length := seq_length, forced := false }]
      current_number_sequence := [] }
  else if seq_length > expected_digits.foldl max 0 then
    { s with current_number_sequence := [] }
  else
    s

/-- Embeds `force_complete_sequence`: archive the current sequence with
`forced := true` and clear it, when it is non-empty. -/
def force_complete_sequence (s : DecoderState) : DecoderState :=
  if s.current_number_sequence ≠ [] then
    { s with
      number_sequences := s.number_sequences ++
        [{ sequence := s.current_number_sequence
           length := s.current_number_sequence.length
           forced := true }]
      current_number_sequence := [] }
  else s

/-- Embeds `decode_current_code`: when the pending code is a dictionary key,
append the digit, bump `total_letters` and run `check_complete_sequence`;
either way clear `current_code` at the end. -/
def decode_current_code (s : DecoderState) : DecoderState :=
  match morse_dict.lookup s.current_code with
  | some digit =>
    let s1 := { s with
      current_number_sequence := s.current_number_sequence ++ [digit]
      total_letters := s.total_letters + 1 }
    let s2 := check_complete_sequence s1
    { s2 with current_code := [] }
  | none => { s with current_code := [] }

/-- Embeds `process_signal_duration`: durations below `dot_duration` are
noise, below `dash_duration` a dot, otherwise a dash. -/
def process_signal_duration (s : DecoderState) (duration : ℚ) : DecoderState :=
  if duration < dot_duration then s
  else if duration < dash_duration then
    { s with current_code := s.current_code ++ [Morse.dot] }
  else
    { s with current_code := s.current_code ++ [Morse.dash] }

/-- Embeds `process_silence_duration`: above `word_gap` decode the pending
code and possibly force-complete a sequence of length at least 3; in the
`elif` branch above `letter_gap` only decode the pending code. -/
def process_silence_duration (s : DecoderState) (duration : ℚ) : DecoderState :=
  if duration > word_gap then
    let s1 := if s.current_code ≠ [] then decode_current_code s else s
    if s1.current_number_sequence ≠ [] ∧ s1.current_number_sequence.length ≥ 3 then
      force_complete_sequence s1
    else s1
  else if duration > letter_gap then
    if s.current_code ≠ [] then decode_current_code s else s
  else s

/-- Embeds `reset_text` restricted to the embedded fields. -/
def reset_text (s : DecoderState) : DecoderState :=
  { s with
    current_number_sequence := []
    current_code := []
    total_letters := 0
    number_sequences := [] }

/-- Embeds `adjust_threshold`: accept `threshold + delta` only when it is
strictly positive, otherwise keep the old threshold. -/
def adjust_threshold (threshold delta : ℚ) : ℚ :=
  let new_threshold := threshold + delta
  if new_threshold > 0 then new_threshold else threshold

/-- The decoder states reachable from `initial_state` by the operations the
running program performs on the embedded fields: signal-duration processing,
silence-duration processing, and reset. -/
inductive Reachable : DecoderState → Prop where
  | init : Reachable initial_state
  | signal (s : DecoderState) (d : ℚ) :
      Reachable s → Reachable (process_signal_duration s d)
  | silence (s : DecoderState) (d : ℚ) :
      Reachable s → Reachable (process_silence_duration s d)
  | reset (s : DecoderState) :
      Reachable s → Reachable (reset_text s)

/-- Embeds `is_sequential_ascending`: true when each digit is strictly
smaller than the next. -/
def is_sequential_ascending : List Nat → Bool
  | [] => true
  | [_] => true
  | x :: y :: rest =>
    if x ≥ y then false else is_sequential_ascending (y :: rest)

/-- Embeds `is_sequential_descending`: true when each digit is strictly
larger than the next. -/
def is_sequential_descending : List Nat → Bool
  | [] => true
  | [_] => true
  | x :: y :: rest =>
    if x ≤ y then false else is_sequential_descending (y :: rest)

/-- Embeds `get_max_consecutive_digits`: the longest run of equal
consecutive digits (0 for the empty sequence, matching `len(sequence)` for
`len <= 1`). The fold carries (previous digit, current run, best run). -/
def get_max_consecutive_digits (sequence : List Nat) : Nat :=
  match sequence with
  | [] => 0
  | x :: rest =>
    (rest.foldl
      (fun (acc : Nat × Nat × Nat) d =>
        if d = acc.1 then (d, acc.2.1 + 1, max acc.2.2 (acc.2.1 + 1))
        else (d, 1, acc.2.2))
      (x, 1, 1)).2.2

/-- Embeds `calculate_confidence`: base 50, set to 95 on an exact match,
+20 ascending or else +15 descending, +10 all distinct or else +5 when
exactly one digit repeats, −10 per unit of run length above 2, then the
result is clamped into [0, 100]. `len(set(permutation))` is embedded as
`permutation.dedup.length`; the `length − 1` comparison is taken in `ℤ`
exactly as Python's unbounded integer arithmetic. -/
def calculate_confidence (permutation original : List Nat) : ℤ :=
  let c0 : ℤ := 50
  let c1 := if permutation = original then 95 else c0
  let c2 :=
    if is_sequential_ascending permutation then c1 + 20
    else if is_sequential_descending permutation then c1 + 15
    else c1
  let unique_digits := permutation.dedup.length
  let c3 :=
    if (unique_digits : ℤ) = (permutation.length : ℤ) then c2 + 10
    else if (unique_digits : ℤ) = (permutation.length : ℤ) - 1 then c2 + 5
    else c2
  let max_consecutive := get_max_consecutive_digits permutation
  let c4 :=
    if max_consecutive > 2 then c3 - 10 * ((max_consecutive : ℤ) - 2)
    else c3
  min (max c4 0) 100

/-- Lexicographic comparison of digit sequences, as a Boolean: Python's
string order restricted to digit strings (on the equal-length permutation
strings being sorted, this is exactly Python's `sorted`). -/
def lexLe : List Nat → List Nat → Bool
  | [], _ => true
  | _ :: _, [] => false
  | x :: xs, y :: ys =>
    if x < y then true else if y < x then false else lexLe xs ys

/-- The ordering relation used to model Python's `sorted` on permutations. -/
def lexRel (a b : List Nat) : Prop := lexLe a b = true

instance : DecidableRel lexRel :=
  fun a b => inferInstanceAs (Decidable (lexLe a b = true))

/-- Embeds `generate_password_permutations`: empty outside lengths 3–4,
otherwise the sorted list of the distinct permutations of the digits
(`itertools.permutations`, `set`, `sorted`). The enumeration order of
`itertools.permutations` is erased by `set`, so any enumeration of all
permutations (here `List.permutations'`) gives the same sorted result. -/
def generate_password_permutations (password : List Nat) : List (List Nat) :=
  if password.length < 3 ∨ password.length > 4 then []
  else List.insertionSort lexRel (List.permutations' password).dedup

/-- One candidate record of `analyze_recent_sequences` (the fields the
program reads back: permutation, source sequence, confidence). -/
structure PasswordCandidate where
  password : List Nat
  original : List Nat
  confidence : ℤ
deriving DecidableEq, Repr

/-- Descending-confidence order used to model
`all_candidates.sort(key=..., reverse=True)` (Python's sort is stable; so is
insertion sort with this order). -/
def confGe (a b : PasswordCandidate) : Prop := b.confidence ≤ a.confidence

instance : DecidableRel confGe :=
  fun a b => inferInstanceAs (Decidable (b.confidence ≤ a.confidence))

/-- Python's negative-index slice `l[-m:]`: the last `m` elements, the whole
list when `m = 0` (then the slice is `l[0:]`). -/
def slice_last (l : List SeqEntry) (m : Nat) : List SeqEntry :=
  if m = 0 then l else l.drop (l.length - m)

/-- Embeds `analyze_recent_sequences`: over the last `max_sequences`
archived sequences, build a candidate per generated permutation, sort by
descending confidence and keep at most 12. -/
def analyze_recent_sequences (number_sequences : List SeqEntry)
    (max_sequences : Nat) : List PasswordCandidate :=
  if number_sequences.length = 0 then []
  else
    let recent := slice_last number_sequences max_sequences
    let all_candidates := recent.flatMap (fun seq_info =>
      (generate_password_permutations seq_info.sequence).map (fun perm =>
        { password := perm
          original := seq_info.sequence
          confidence := calculate_confidence perm seq_info.sequence }))
    (List.insertionSort confGe all_candidates).take 12

/-- Embeds `scipy.signal.lfilter b a x` with zero initial conditions, the
call made by `apply_bandpass_filter`: the causal IIR recurrence
y n = Σ k < len b, b k * x (n−k)  −  Σ 1 ≤ k < len a, a k * y (n−k),
with out-of-range samples read as 0 and the coefficients normalised so that
a 0 = 1 (scipy divides both coefficient vectors by a 0; `butter` already
returns a 0 = 1). -/
def lfilter (b a : List ℚ) (x : List ℚ) : List ℚ :=
  (List.range x.length).foldl
    (fun ys n =>
      let bsum := (List.range b.length).foldl
        (fun acc k => if k ≤ n then acc + b.getD k 0 * x.getD (n - k) 0 else acc) 0
      let asum := (List.range a.length).foldl
        (fun acc k =>
          if 1 ≤ k ∧ k ≤ n then acc + a.getD k 0 * ys.getD (n - k) 0 else acc) 0
      ys ++ [bsum - asum])
    []

/-- Embeds `apply_bandpass_filter`: a bare `lfilter(self.b, self.a, data)`
call — no initial-condition vector `zi` is passed in and no final state is
kept, so every chunk is filtered from zero initial conditions. The fixed
coefficients `self.b, self.a` from `create_bandpass_filter` are parameters
here (their float values are irrational outputs of `scipy.signal.butter`). -/
def apply_bandpass_filter (b a : List ℚ) (data : List ℚ) : List ℚ :=
  lfilter b a data

/-! Theorems settling the specification claims. -/

/-- C6: symbol classification is a pure function of the signal duration:
below `dot_duration` no symbol is appended, in `[dot_duration, dash_duration)`
a DOT is appended to the code buffer, and at or above `dash_duration` a DASH
is appended. -/
theorem process_signal_duration_classification (s : DecoderState) (d : ℚ) :
    (d < dot_duration → process_signal_duration s d = s)
    ∧ (dot_duration ≤ d → d < dash_duration →
        process_signal_duration s d =
          { s with current_code := s.current_code ++ [Morse.dot] })
    ∧ (dash_duration ≤ d →
        process_signal_duration s d =
          { s with current_code := s.current_code ++ [Morse.dash] }) := by
  unfold process_signal_duration
  refine ⟨fun h => ?_, fun h1 h2 => ?_, fun h => ?_⟩
  · rw [if_pos h]
  · rw [if_neg (not_lt.mpr h1), if_pos h2]
  · have hd : dot_duration ≤ d := le_trans (by norm_num [dot_duration, dash_duration]) h
    rw [if_neg (not_lt.mpr hd), if_neg (not_lt.mpr h)]

/-- Witness for `process_signal_duration_classification` at durations
0.01, 0.03 and 0.06. -/
theorem process_signal_duration_classification_witness :
    process_signal_duration initial_state (1/100) = initial_state
    ∧ process_signal_duration initial_state (3/100) =
        { initial_state with current_code := [Morse.dot] }
    ∧ process_signal_duration initial_state (6/100) =
        { initial_state with current_code := [Morse.dash] } :=
  ⟨(process_signal_duration_classification initial_state (1/100)).1
      (by norm_num [dot_duration]),
   (process_signal_duration_classification initial_state (3/100)).2.1
      (by norm_num [dot_duration]) (by norm_num [dash_duration]),
   (process_signal_duration_classification initial_state (6/100)).2.2
      (by norm_num [dash_duration])⟩

/-- C7: decoding the pending code is total: a mapped code appends its digit
(and runs the completion check) and clears the code buffer, an unmapped code
changes nothing except clearing the code buffer. -/
theorem decode_current_code_spec (s : DecoderState) :
    (∀ digit : Nat, morse_dict.lookup s.current_code = some digit →
        decode_current_code s =
          { check_complete_sequence
              { s with
                current_number_sequence := s.current_number_sequence ++ [digit]
                total_letters := s.total_letters + 1 }
            with current_code := [] })
    ∧ (morse_dict.lookup s.current_code = none →
        decode_current_code s = { s with current_code := [] }) := by
  unfold decode_current_code
  constructor
  · intro digit h
    rw [h]
  · intro h
    rw [h]

/-- Witness for `decode_current_code_spec`: the code `.----` decodes to the
digit 1 and the code `.....-` (not a key) decodes to nothing; both clear the
pending code. -/
theorem decode_current_code_spec_witness :
    decode_current_code
        ⟨[Morse.dot, Morse.dash, Morse.dash, Morse.dash, Morse.dash], [], [], 0⟩ =
      ⟨[], [1], [], 1⟩
    ∧ decode_current_code
        ⟨[Morse.dot, Morse.dot, Morse.dot, Morse.dot, Morse.dot, Morse.dash],
          [5], [], 1⟩ =
      ⟨[], [5], [], 1⟩ :=
  ⟨(decode_current_code_spec
      ⟨[Morse.dot, Morse.dash, Morse.dash, Morse.dash, Morse.dash], [], [], 0⟩).1
      1 (by decide),
   (decode_current_code_spec
      ⟨[Morse.dot, Morse.dot, Morse.dot, Morse.dot, Morse.dot, Morse.dash],
        [5], [], 1⟩).2 (by decide)⟩

/-- C3: the completion policy on the current sequence length: at an expected
length (3 or 4) the sequence is archived non-forced and the buffer cleared;
above the maximum expected length (4) the buffer is discarded without
archiving; otherwise the state is unchanged. -/
theorem check_complete_sequence_policy (s : DecoderState) :
    (s.current_number_sequence.length = 3 ∨ s.current_number_sequence.length = 4 →
        check_complete_sequence s =
          { s with
            number_sequences := s.number_sequences ++
              [{ sequence := s.current_number_sequence
                 length := s.current_number_sequence.length
                 forced := false }]
            current_number_sequence := [] })
    ∧ (s.current_number_sequence.length ≠ 3 → s.current_number_sequence.length ≠ 4 →
        4 < s.current_number_sequence.length →
        check_complete_sequence s = { s with current_number_sequence := [] })
    ∧ (s.current_number_sequence.length ≠ 3 → s.current_number_sequence.length ≠ 4 →
        s.current_number_sequence.length ≤ 4 →
        check_complete_sequence s = s) := by
  have hmax : expected_digits.foldl max 0 = 4 := by decide
  unfold check_complete_sequence
  refine ⟨fun h => ?_, fun h3 h4 hgt => ?_, fun h3 h4 hle => ?_⟩
  · have hm : s.current_number_sequence.length ∈ expected_digits := by
      simp [expected_digits]; omega
    rw [if_pos hm]
  · have hm : ¬ s.current_number_sequence.length ∈ expected_digits := by
      simp [expected_digits]; omega
    have hg : s.current_number_sequence.length > expected_digits.foldl max 0 := by
      rw [hmax]; omega
    rw [if_neg hm, if_pos hg]
  · have hm : ¬ s.current_number_sequence.length ∈ expected_digits := by
      simp [expected_digits]; omega
    have hg : ¬ s.current_number_sequence.length > expected_digits.foldl max 0 := by
      rw [hmax]; omega
    rw [if_neg hm, if_neg hg]

/-- Witness for `check_complete_sequence_policy`: a length-3 buffer is
archived non-forced and cleared; a length-2 buffer is left alone. -/
theorem check_complete_sequence_policy_witness :
    check_complete_sequence ⟨[], [1, 2, 3], [], 3⟩ =
      ⟨[], [], [⟨[1, 2, 3], 3, false⟩], 3⟩
    ∧ check_complete_sequence ⟨[], [1, 2], [], 2⟩ = ⟨[], [1, 2], [], 2⟩ :=
  ⟨(check_complete_sequence_policy ⟨[], [1, 2, 3], [], 3⟩).1 (Or.inl rfl),
   (check_complete_sequence_policy ⟨[], [1, 2], [], 2⟩).2.2
      (by decide) (by decide) (by decide)⟩

/-- C10: adjusting the threshold by a delta that would make it non-positive
leaves it unchanged (and raises no error: the function is total); otherwise
the threshold becomes the sum. -/
theorem adjust_threshold_spec (threshold delta : ℚ) :
    (threshold + delta ≤ 0 → adjust_threshold threshold delta = threshold)
    ∧ (0 < threshold + delta → adjust_threshold threshold delta = threshold + delta) := by
  unfold adjust_threshold
  exact ⟨fun h => by rw [if_neg (not_lt.mpr h)], fun h => by rw [if_pos h]⟩

/-- Witness for `adjust_threshold_spec`: from the initial threshold 0.003,
the delta −0.003 − 0.001 is rejected and the delta +0.001 is applied. -/
theorem adjust_threshold_spec_witness :
    adjust_threshold initial_threshold (-initial_threshold - 1/1000) = initial_threshold
    ∧ adjust_threshold initial_threshold (1/1000) = initial_threshold + 1/1000 :=
  ⟨(adjust_threshold_spec initial_threshold (-initial_threshold - 1/1000)).1
      (by norm_num [initial_threshold]),
   (adjust_threshold_spec initial_threshold (1/1000)).2
      (by norm_num [initial_threshold])⟩

/-- C8: confidence scoring: the identity permutation of 123 scores exactly
100 (the exact-match value 95 = 50 + 45, +20 ascending, +10 distinct, clamped
to 100), the reversal 321 scores exactly 75 (50, +15 descending, +10
distinct), and every permutation of every digit multiset of length 3 or 4
scores within [0, 100]. -/
theorem calculate_confidence_spec :
    calculate_confidence [1, 2, 3] [1, 2, 3] = 100
    ∧ calculate_confidence [3, 2, 1] [1, 2, 3] = 75
    ∧ ∀ permutation original : List Nat,
        permutation.Perm original →
        (original.length = 3 ∨ original.length = 4) →
        (∀ digit ∈ original, digit < 10) →
        0 ≤ calculate_confidence permutation original
          ∧ calculate_confidence permutation original ≤ 100 := by
  refine ⟨by decide, by decide, fun permutation original _ _ _ => ?_⟩
  unfold calculate_confidence
  exact ⟨le_min (le_max_right _ _) (by norm_num), min_le_right _ _⟩

/-- Witness for `calculate_confidence_spec` at the permutation 213 of the
multiset of 123. -/
theorem calculate_confidence_spec_witness :
    0 ≤ calculate_confidence [2, 1, 3] [1, 2, 3]
      ∧ calculate_confidence [2, 1, 3] [1, 2, 3] ≤ 100 :=
  calculate_confidence_spec.2.2 [2, 1, 3] [1, 2, 3]
    (by decide) (by decide) (by decide)

/-- Entries appended by a decode step are never forced: `decode_current_code`
either leaves the archive unchanged or appends a `forced := false` record
through `check_complete_sequence`. -/
theorem decode_current_code_entries (s : DecoderState) :
    ∀ e ∈ (decode_current_code s).number_sequences,
      e ∈ s.number_sequences ∨ e.forced = false := by
  intro e he
  unfold decode_current_code at he
  cases hl : morse_dict.lookup s.current_code with
  | none => rw [hl] at he; exact Or.inl he
  | some digit =>
    rw [hl] at he
    simp only at he
    unfold check_complete_sequence at he
    simp only at he
    split at he
    · simp only [List.mem_append, List.mem_singleton] at he
      rcases he with he | he
      · exact Or.inl he
      · exact Or.inr (by rw [he])
    · split at he
      · exact Or.inl he
      · exact Or.inl he

/-- C4: forced flushing. On a silence above `word_gap` (the threshold gating
the sequence-end branch), after the pending code is decoded: a sequence
buffer of length at least 3 is archived with `forced := true` and cleared,
and a shorter buffer is left untouched; on a silence not above `word_gap`
every newly archived record is non-forced, so forced records arise only in
the long-silence branch. -/
theorem forced_flush_spec (s s₁ : DecoderState) (d : ℚ)
    (hs₁ : s₁ = if s.current_code ≠ [] then decode_current_code s else s) :
    (word_gap < d → 3 ≤ s₁.current_number_sequence.length →
        process_silence_duration s d =
          { s₁ with
            number_sequences := s₁.number_sequences ++
              [{ sequence := s₁.current_number_sequence
                 length := s₁.current_number_sequence.length
                 forced := true }]
            current_number_sequence := [] })
    ∧ (word_gap < d → s₁.current_number_sequence.length < 3 →
        process_silence_duration s d = s₁)
    ∧ (d ≤ word_gap →
        ∀ e ∈ (process_silence_duration s d).number_sequences,
          e ∈ s.number_sequences ∨ e.forced = false) := by
  simp only [process_silence_duration]
  rw [← hs₁]
  refine ⟨fun hd hlen => ?_, fun hd hlen => ?_, fun hd => ?_⟩
  · have hne : s₁.current_number_sequence ≠ [] := by
      intro hnil
      rw [hnil] at hlen
      simp at hlen
    rw [if_pos hd, if_pos ⟨hne, hlen⟩]
    unfold force_complete_sequence
    rw [if_pos hne]
  · have hcond : ¬ (s₁.current_number_sequence ≠ []
        ∧ s₁.current_number_sequence.length ≥ 3) := by
      rintro ⟨-, hge⟩
      omega
    rw [if_pos hd, if_neg hcond]
  · rw [if_neg (not_lt.mpr hd)]
    intro e he
    split at he
    · rw [hs₁] at he
      split at he
      · exact decode_current_code_entries s e he
      · exact Or.inl he
    · exact Or.inl he

/-- Witness for `forced_flush_spec`: with an empty pending code, a 3-digit
buffer 125 and a 1-second silence, a forced record is archived and the
buffer cleared. -/
theorem forced_flush_spec_witness :
    process_silence_duration ⟨[], [1, 2, 5], [], 3⟩ 1 =
      ⟨[], [], [⟨[1, 2, 5], 3, true⟩], 3⟩ :=
  (forced_flush_spec ⟨[], [1, 2, 5], [], 3⟩ ⟨[], [1, 2, 5], [], 3⟩ 1
      (by decide)).1 (by norm_num [word_gap]) (by decide)

/-- C2 fails on the code: the configured sequence-end threshold `word_gap`
(0.4, the spec's `sequenceGap` role) is strictly below the digit-gap
threshold `letter_gap` (0.8, the spec's `digitGap`), the opposite of the
claimed ordering; consequently a silence of 0.6 — inside `(word_gap,
letter_gap]`, so below the digit gap — already runs the sequence-end branch
and force-archives a pending 3-digit buffer, and the per-digit `elif` branch
is unreachable (its guard `d > letter_gap` implies `d > word_gap`). -/
theorem silence_gap_ordering_violated :
    word_gap < letter_gap
    ∧ process_silence_duration ⟨[], [1, 2, 5], [], 3⟩ (6/10) =
        ⟨[], [], [⟨[1, 2, 5], 3, true⟩], 3⟩ := by
  constructor
  · norm_num [word_gap, letter_gap]
  · have hd : (6/10 : ℚ) > word_gap := by norm_num [word_gap]
    simp only [process_silence_duration]
    rw [if_pos hd]
    decide

/-- C1 fails on the code: `apply_bandpass_filter` runs `lfilter` from zero
initial conditions on every chunk (no `zi` is carried), so filtering two
consecutive chunks does not agree with filtering their concatenation for any
filter with internal memory. Shown here on the IIR coefficients b = 1,
a = 1, −2 and the chunk pair 1 and 0: chunkwise filtering yields 1, 0
while the concatenation filters to 1, 2. -/
theorem apply_bandpass_filter_not_chunk_continuous :
    apply_bandpass_filter [1] [1, -2] [1] ++ apply_bandpass_filter [1] [1, -2] [0]
      ≠ apply_bandpass_filter [1] [1, -2] [1, 0] := by
  norm_num [apply_bandpass_filter, lfilter, List.range_succ]

/-- The inductive invariant behind C5: the sequence buffer never exceeds 2
digits, and every archived record is non-forced with exactly 3 digits. -/
def BufferInv (s : DecoderState) : Prop :=
  s.current_number_sequence.length ≤ 2
  ∧ ∀ e ∈ s.number_sequences,
      e.forced = false ∧ e.length = 3 ∧ e.sequence.length = 3

/-- The completion check re-establishes `BufferInv` from any state whose
buffer holds at most 3 digits (the situation right after one append). -/
theorem check_complete_sequence_bufferInv (s : DecoderState)
    (hlen : s.current_number_sequence.length ≤ 3)
    (hent : ∀ e ∈ s.number_sequences,
      e.forced = false ∧ e.length = 3 ∧ e.sequence.length = 3) :
    BufferInv (check_complete_sequence s) := by
  unfold check_complete_sequence BufferInv
  simp only
  split
  · rename_i hm
    refine ⟨by simp, fun e he => ?_⟩
    simp only [List.mem_append, List.mem_singleton] at he
    rcases he with he | he
    · exact hent e he
    · have h3 : s.current_number_sequence.length = 3 := by
        simp [expected_digits] at hm
        omega
      subst he
      exact ⟨rfl, h3, h3⟩
  · split
    · exact ⟨by simp, hent⟩
    · rename_i hm hgt
      have h2 : s.current_number_sequence.length ≤ 2 := by
        simp [expected_digits] at hm
        omega
      exact ⟨h2, hent⟩

/-- Decoding one pending code preserves `BufferInv`. -/
theorem decode_current_code_bufferInv (s : DecoderState) (h : BufferInv s) :
    BufferInv (decode_current_code s) := by
  unfold decode_current_code
  cases hl : morse_dict.lookup s.current_code with
  | none => exact h
  | some digit =>
    simp only
    exact check_complete_sequence_bufferInv
      { s with
        current_number_sequence := s.current_number_sequence ++ [digit]
        total_letters := s.total_letters + 1 }
      (by have h1 := h.1; simp only [List.length_append, List.length_singleton]; omega)
      h.2

/-- Silence processing preserves `BufferInv`; in particular the forced-flush
guard is always false in an invariant state. -/
theorem process_silence_duration_bufferInv (s : DecoderState) (d : ℚ)
    (h : BufferInv s) : BufferInv (process_silence_duration s d) := by
  simp only [process_silence_duration]
  have h1 : BufferInv (if s.current_code ≠ [] then decode_current_code s else s) := by
    split
    · exact decode_current_code_bufferInv s h
    · exact h
  generalize hX : (if s.current_code ≠ [] then decode_current_code s else s) = X at h1 ⊢
  split
  · rw [if_neg]
    · exact h1
    · rintro ⟨-, hge⟩
      have h2 := h1.1
      omega
  · split
    · exact h1
    · exact h

/-- Signal processing touches only the code buffer, preserving `BufferInv`. -/
theorem process_signal_duration_bufferInv (s : DecoderState) (d : ℚ)
    (h : BufferInv s) : BufferInv (process_signal_duration s d) := by
  unfold process_signal_duration
  split
  · exact h
  · split
    · exact ⟨h.1, h.2⟩
    · exact ⟨h.1, h.2⟩

/-- Resetting establishes `BufferInv`. -/
theorem reset_text_bufferInv (s : DecoderState) : BufferInv (reset_text s) :=
  ⟨by simp [reset_text], fun e he => absurd he (by simp [reset_text])⟩

/-- Every reachable state satisfies `BufferInv`. -/
theorem reachable_bufferInv (s : DecoderState) (h : Reachable s) : BufferInv s := by
  induction h with
  | init =>
    exact ⟨by simp [initial_state],
      fun e he => absurd he (by simp [initial_state])⟩
  | signal s d _ ih => exact process_signal_duration_bufferInv s d ih
  | silence s d _ ih => exact process_silence_duration_bufferInv s d ih
  | reset s _ _ => exact reset_text_bufferInv s

/-- C5: with expected lengths 3, 4 (which contain 3), every reachable state
has a sequence buffer of at most 2 digits; every archived record is
non-forced (no forced flush ever fires) and holds exactly 3 digits (so no
non-forced record of length 4 is ever archived); and one further append
cannot exceed `max(expected_digits) = 4`, so the discard branch of
`check_complete_sequence` is never taken. -/
theorem sequence_buffer_invariant (s : DecoderState) (h : Reachable s) :
    s.current_number_sequence.length ≤ 2
    ∧ (∀ e ∈ s.number_sequences, e.forced = false)
    ∧ (∀ e ∈ s.number_sequences, e.length = 3 ∧ e.sequence.length = 3)
    ∧ s.current_number_sequence.length + 1 ≤ expected_digits.foldl max 0 := by
  have hb := reachable_bufferInv s h
  have hmax : expected_digits.foldl max 0 = 4 := by decide
  refine ⟨hb.1, fun e he => (hb.2 e he).1, fun e he => (hb.2 e he).2, ?_⟩
  rw [hmax]
  have h1 := hb.1
  omega

/-- Witness for `sequence_buffer_invariant` at the initial state. -/
theorem sequence_buffer_invariant_witness :
    initial_state.current_number_sequence.length ≤ 2
    ∧ (∀ e ∈ initial_state.number_sequences, e.forced = false)
    ∧ (∀ e ∈ initial_state.number_sequences, e.length = 3 ∧ e.sequence.length = 3)
    ∧ initial_state.current_number_sequence.length + 1 ≤ expected_digits.foldl max 0 :=
  sequence_buffer_invariant initial_state Reachable.init

/-- Elements of a Python tail slice come from the sliced list. -/
theorem slice_last_subset (l : List SeqEntry) (m : Nat) (e : SeqEntry)
    (h : e ∈ slice_last l m) : e ∈ l := by
  unfold slice_last at h
  split at h
  · exact h
  · exact List.mem_of_mem_drop h

/-- C9: the candidate list is truncated to at most 12 entries and sorted by
descending confidence; every returned candidate stems from an archived
sequence of the recent window with its recomputed confidence; and for every
password of length 3 or 4 the generated permutations are exactly the
distinct permutations of its digit multiset (no duplicates, and membership
coincides with being a permutation). -/
theorem analyze_recent_sequences_spec (ns : List SeqEntry) (m : Nat) :
    (analyze_recent_sequences ns m).length ≤ 12
    ∧ (analyze_recent_sequences ns m).Pairwise confGe
    ∧ (∀ c ∈ analyze_recent_sequences ns m,
        ∃ e ∈ ns, c.original = e.sequence
          ∧ c.password ∈ generate_password_permutations e.sequence
          ∧ c.confidence = calculate_confidence c.password c.original)
    ∧ ∀ password : List Nat, password.length = 3 ∨ password.length = 4 →
        (generate_password_permutations password).Nodup
        ∧ ∀ q : List Nat,
            q ∈ generate_password_permutations password ↔ q.Perm password := by
  refine ⟨?_, ?_, ?_, ?_⟩
  · unfold analyze_recent_sequences
    split
    · simp
    · simp
  · unfold analyze_recent_sequences
    split
    · simp
    · refine List.Pairwise.sublist (List.take_sublist _ _) ?_
      exact @List.sorted_insertionSort _ confGe _
        ⟨fun a b => le_total b.confidence a.confidence⟩
        ⟨fun a b c hab hbc => le_trans hbc hab⟩ _
  · intro c hc
    unfold analyze_recent_sequences at hc
    split at hc
    · simp at hc
    · have hc2 := List.mem_of_mem_take hc
      rw [(List.perm_insertionSort confGe _).mem_iff] at hc2
      rw [List.mem_flatMap] at hc2
      obtain ⟨e, he, hmem⟩ := hc2
      rw [List.mem_map] at hmem
      obtain ⟨perm, hperm, rfl⟩ := hmem
      exact ⟨e, slice_last_subset ns m e he, rfl, hperm, rfl⟩
  · intro password hlen
    constructor
    · unfold generate_password_permutations
      split
      · exact List.nodup_nil
      · exact ((List.perm_insertionSort lexRel _).nodup_iff).mpr (List.nodup_dedup _)
    · intro q
      unfold generate_password_permutations
      rw [if_neg (by omega)]
      rw [(List.perm_insertionSort lexRel _).mem_iff, List.mem_dedup,
        List.mem_permutations']

/-- Witness for `analyze_recent_sequences_spec` on a one-sequence history
and the password 321. -/
theorem analyze_recent_sequences_spec_witness :
    (analyze_recent_sequences [⟨[1, 2, 3], 3, false⟩] 3).length ≤ 12
    ∧ ([1, 2, 3] ∈ generate_password_permutations [3, 2, 1] ↔
        ([1, 2, 3] : List Nat).Perm [3, 2, 1]) :=
  ⟨(analyze_recent_sequences_spec [⟨[1, 2, 3], 3, false⟩] 3).1,
   ((analyze_recent_sequences_spec [⟨[1, 2, 3], 3, false⟩] 3).2.2.2
      [3, 2, 1] (Or.inl rfl)).2 [1, 2, 3]⟩

end DeltaMorse
